import Mathlib
/-!
Verification development for the comment-moderation pipeline
(`comment_moderator.py`).  The Python program is shallowly embedded:
Python dictionaries become association lists over a small universe of
JSON-like values, the external classification service and the JSON
parser are quantified boundary parameters, and every fallible Python
operation (raising indexing, `dict.update` with a non-mapping, the
aggregation loop) is modelled with `Option`, where `none` stands for an
uncaught exception.
-/
/-- Universe of Python/JSON values manipulated by the pipeline. -/
inductive PyVal where
  | pnone
  | pbool (b : Bool)
  | pint (n : Int)
  | pstr (s : String)
  | plist (xs : List PyVal)
  | pdict (entries : List (String × PyVal))
mutual
/-- Structural equality test on values (Python `==` on these values). -/
def pyBeq : PyVal → PyVal → Bool
  | .pnone, .pnone => true
  | .pbool a, .pbool b => a == b
  | .pint a, .pint b => a == b
  | .pstr a, .pstr b => a == b
  | .plist xs, .plist ys => pyBeqList xs ys
  | .pdict xs, .pdict ys => pyBeqEntries xs ys
  | _, _ => false
def pyBeqList : List PyVal → List PyVal → Bool
  | [], [] => true
  | x :: xs, y :: ys => pyBeq x y && pyBeqList xs ys
  | _, _ => false
def pyBeqEntries : List (String × PyVal) → List (String × PyVal) → Bool
  | [], [] => true
  | (k, v) :: xs, (l, w) :: ys => k == l && pyBeq v w && pyBeqEntries xs ys
  | _, _ => false
end
instance : BEq PyVal := ⟨pyBeq⟩
/-- A Python dictionary with string keys, as an insertion-ordered
association list (Python dicts preserve insertion order). -/
def Dict := List (String × PyVal)
/-- Python `d[k]` lookup: `none` models a raised `KeyError`. -/
def dget : Dict → String → Option PyVal
  | [], _ => none
  | (k', v') :: d, k => if k = k' then some v' else dget d k
/-- Value of the last binding of `k`, mirroring the fact that later
assignments win in a Python dict. -/
def dgetLast : Dict → String → Option PyVal
  | [], _ => none
  | (k', v') :: e, k =>
      match dgetLast e k with
      | some v => some v
      | none => if k = k' then some v' else none
/-- Python `d[k] = v`: overwrite in place if the key exists (keeping its
position), otherwise append at the end. -/
def dset : Dict → String → PyVal → Dict
  | [], k, v => [(k, v)]
  | (k', v') :: d, k, v =>
      if k = k' then (k', v) :: d else (k', v') :: dset d k v
/-- Python `d.update(e)` for a dict argument `e`. -/
def dupdate (d : Dict) (e : List (String × PyVal)) : Dict :=
  e.foldl (fun acc kv => dset acc kv.1 kv.2) d
/-- Python truthiness of a value (`if c['is_offensive']:` and friends). -/
def PyVal.truthy : PyVal → Bool
  | .pnone => false
  | .pbool b => b
  | .pint n => n != 0
  | .pstr s => s ≠ ""
  | .plist xs => !xs.isEmpty
  | .pdict e => !e.isEmpty
/-- Numeric view: Python treats `bool` as an `int` in comparisons. -/
def PyVal.numView : PyVal → Option Int
  | .pbool b => some (if b then 1 else 0)
  | .pint n => some n
  | _ => none
/-- Python `a < b` for the value shapes this program can compare
(numbers with numbers, strings with strings).  Comparisons Python would
reject with a `TypeError` are outside the regions used by the theorems
below, which restrict severities to integers. -/
def pyLt (a b : PyVal) : Bool :=
  match a.numView, b.numView with
  | some x, some y => decide (x < y)
  | _, _ =>
      match a, b with
      | .pstr s, .pstr t => decide (s < t)
      | _, _ => false
/-- `collections.Counter`: count occurrences, first-seen key order. -/
def bump (k : PyVal) : List (PyVal × Nat) → List (PyVal × Nat)
  | [] => [(k, 1)]
  | (k', n) :: rest =>
      if pyBeq k k' then (k', n + 1) :: rest else (k', n) :: bump k rest
/-- `collections.Counter` over a list of values. -/
def counter (l : List PyVal) : List (PyVal × Nat) :=
  l.foldl (fun acc k => bump k acc) []
/-! ## Classification client (`analyze_comment`, lines 23-44) -/
/-- Outcome of `openai.ChatCompletion.create(...)` followed by the
extraction `response.choices[0].message.content`: either some exception
was raised, or a content string came back. -/
inductive ApiCall where
  | raised
  | responded (content : String)
/-- The degraded default record returned by the `except` branch of
`analyze_comment`. -/
def errorDefault : Dict :=
  [("is_offensive", .pbool false),
   ("offense_type", .pstr "error"),
   ("severity", .pint 1),
   ("explanation", .pstr "Error in analysis")]
/-- `analyze_comment` (lines 23-44).  `parse` models `json.loads`:
`none` means the parse raised, `some v` that it returned the value `v`.
Both an exception from the API call and a parse exception land in the
`except` branch, which returns `errorDefault`; a successful parse
returns the parsed value unchanged (whatever shape it has). -/
def analyze_comment (parse : String → Option PyVal) (call : ApiCall) : PyVal :=
  match call with
  | .raised => .pdict errorDefault
  | .responded s =>
      match parse s with
      | none => .pdict errorDefault
      | some v => v
/-! ## Per-comment annotation loop (`main`, lines 127-133) -/
/-- One iteration of the annotation loop: store the profanity
pre-filter verdict, call the classifier on `comment['comment_text']`,
and `comment.update(analysis)`.  `none` models an uncaught exception
(missing `comment_text` key, or `update` applied to a non-dict). -/
def processComment (parse : String → Option PyVal) (pf : PyVal → Bool)
    (call : PyVal → ApiCall) (c : Dict) : Option Dict :=
  match dget c "comment_text" with
  | none => none
  | some t =>
      let c1 := dset c "contains_profanity" (.pbool (pf t))
      match dget c1 "comment_text" with
      | none => none
      | some t2 =>
          match analyze_comment parse (call t2) with
          | .pdict e => some (dupdate c1 e)
          | _ => none
/-- Run a fallible function over a list, stopping at the first failure
(the shape of Python's `for` loop raising mid-iteration). -/
def mapOpt (f : α → Option β) : List α → Option (List β)
  | [] => some []
  | x :: xs =>
      match f x, mapOpt f xs with
      | some y, some ys => some (y :: ys)
      | _, _ => none
/-- A filtering comprehension whose predicate may raise. -/
def filterOpt (p : α → Option Bool) : List α → Option (List α)
  | [] => some []
  | x :: xs =>
      match p x, filterOpt p xs with
      | some true, some ys => some (x :: ys)
      | some false, some ys => some ys
      | _, _ => none
/-! ## Report aggregator (`generate_report`, lines 77-99) -/
/-- The sort key `x.get('severity', 1)` (line 86); the same defaulting
lookup `c.get('severity', 1)` appears in `plot_severity_distribution`
(line 63) and in the two printed listings (lines 172 and 181). -/
def sevKey (c : Dict) : PyVal :=
  (dget c "severity").getD (.pint 1)
/-- `c['is_offensive']` followed by the implicit truthiness test of
`if c['is_offensive']`; `none` models the `KeyError`. -/
def offensiveFlag (c : Dict) : Option Bool :=
  (dget c "is_offensive").map PyVal.truthy
/-- Insert into a list that is already sorted by `sevKey` descending,
after every element with a strictly greater key (Python's stable sort
with `reverse=True` keeps equal-key elements in input order). -/
def insertDesc (x : Dict) : List Dict → List Dict
  | [] => [x]
  | y :: ys =>
      if pyLt (sevKey x) (sevKey y) then y :: insertDesc x ys
      else x :: y :: ys
/-- Stable sort by `sevKey` descending, the behaviour of
`sorted(..., key=lambda x: x.get('severity', 1), reverse=True)`. -/
def sortDesc : List Dict → List Dict
  | [] => []
  | x :: xs => insertDesc x (sortDesc xs)
/-- The summary report dictionary built by `generate_report`. -/
structure Report where
  total_comments : Nat
  offensive_comments : Nat
  offense_types : List (PyVal × Nat)
  most_offensive : List Dict
  all_offensive : List Dict
/-- `generate_report` (lines 77-99).  The three comprehensions over
`if c['is_offensive']` compute the same list, modelled once; `none`
models the `KeyError` raised when a record lacks `is_offensive` (or an
offensive record lacks `offense_type`). -/
def generate_report (l : List Dict) : Option Report :=
  match filterOpt offensiveFlag l with
  | none => none
  | some offensive =>
      match mapOpt (fun c => dget c "offense_type") offensive with
      | none => none
      | some types =>
          some { total_comments := l.length,
                 offensive_comments := offensive.length,
                 offense_types := counter types,
                 most_offensive := (sortDesc offensive).take 5,
                 all_offensive := offensive }
/-! ## Orchestrator data flow (`main`, lines 112-144) -/
/-- The value of the list `comments` at the export point of `main`:
annotate every record in order, build the report (whose failure, a
`KeyError`, aborts the run before export), then optionally filter to
offensive records (line 140).  The result is exactly the sequence
serialized by `export_to_json` (lines 101-104, `json.dump` of the
list). -/
def runPipeline (parse : String → Option PyVal) (pf : PyVal → Bool)
    (call : PyVal → ApiCall) (filterOffensive : Bool)
    (comments : List Dict) : Option (List Dict) :=
  match mapOpt (processComment parse pf call) comments with
  | none => none
  | some annotated =>
      match generate_report annotated with
      | none => none
      | some _report =>
          if filterOffensive then filterOpt offensiveFlag annotated
          else some annotated
/-! ## Chart renderer (lines 46-75) and chart paths (lines 147-156) -/
/-- File format of a rendered chart: interactive HTML or a static
image. -/
inductive ChartFormat where
  | html
  | png
deriving DecidableEq
/-- A chart write: the target path, the format actually written to it,
and the aggregated data the figure was built from. -/
structure ChartFile where
  path : String
  format : ChartFormat
  data : List (PyVal × Nat)
/-- `plot_offense_distribution` (lines 46-59): builds a bar figure from
the offense-type counter and then calls `fig.write_html(output_file)` —
unconditionally HTML, whatever the path's extension. -/
def plot_offense_distribution (offense_types : List (PyVal × Nat))
    (output_file : String) : ChartFile :=
  { path := output_file, format := .html, data := offense_types }
/-- `plot_severity_distribution` (lines 61-75): counts
`c.get('severity', 1)` over the records with truthy `c['is_offensive']`
(raising on a missing `is_offensive` key) and calls
`fig.write_html(output_file)` — again unconditionally HTML. -/
def plot_severity_distribution (comments : List Dict)
    (output_file : String) : Option ChartFile :=
  match filterOpt offensiveFlag comments with
  | none => none
  | some offensive =>
      some { path := output_file, format := .html,
             data := counter (offensive.map sevKey) }
/-- Last index of `c` in `s`, or `-1` (Python `str.rfind`). -/
def rfindChar (c : Char) : List Char → Int
  | [] => -1
  | x :: xs =>
      let r := rfindChar c xs
      if r ≥ 0 then r + 1 else if x = c then 0 else -1
/-- `os.path.splitext` (posix): split at the last dot that lies after
the last separator, unless every character between the separator and
that dot is itself a dot (leading dots of the base name never start an
extension). -/
def pySplitext (p : List Char) : List Char × List Char :=
  let sepIndex := rfindChar '/' p
  let dotIndex := rfindChar '.' p
  if dotIndex > sepIndex then
    let between := (p.drop (sepIndex + 1).toNat).take (dotIndex - sepIndex - 1).toNat
    if between.any (fun c => c ≠ '.') then
      (p.take dotIndex.toNat, p.drop dotIndex.toNat)
    else (p, [])
  else (p, [])
/-- The string value of the `--plot-format` flag. -/
def fmtStr : ChartFormat → String
  | .html => "html"
  | .png => "png"
/-- Chart path built at line 149:
`os.path.splitext(output_file)[0] + '_offense_distribution.' + plot_format`. -/
def offenseChartPath (output_file : String) (fmt : ChartFormat) : String :=
  (pySplitext output_file.toList).1.asString ++ "_offense_distribution." ++ fmtStr fmt
/-- Chart path built at line 154. -/
def severityChartPath (output_file : String) (fmt : ChartFormat) : String :=
  (pySplitext output_file.toList).1.asString ++ "_severity_distribution." ++ fmtStr fmt
/-- The two chart writes performed by `main` (lines 147-156) when
`create_plots` is on and the offense-type counter is nonempty. -/
def renderCharts (offense_types : List (PyVal × Nat)) (comments : List Dict)
    (output_file : String) (fmt : ChartFormat) : ChartFile × Option ChartFile :=
  (plot_offense_distribution offense_types (offenseChartPath output_file fmt),
   plot_severity_distribution comments (severityChartPath output_file fmt))
/-! ## Output-path rename (`main`, line 141) -/
/-- Does `pat` start the list `s`? -/
def listStarts : List Char → List Char → Bool
  | [], _ => true
  | _ :: _, [] => false
  | p :: ps, c :: cs => p = c && listStarts ps cs
/-- The constant first argument of the `str.replace` call at line 141. -/
def jsonPat : List Char := ".json".toList
/-- The constant second argument of that `str.replace` call. -/
def offRep : List Char := "_offensive.json".toList
/-- Python `str.replace` specialised to the constant pattern `'.json'`
of line 141: scan left to right, replacing every non-overlapping
occurrence of `'.json'` by `rep` and skipping the matched region. -/
def replaceJson (rep : List Char) : List Char → List Char
  | '.' :: 'j' :: 's' :: 'o' :: 'n' :: rest => rep ++ replaceJson rep rest
  | c :: cs => c :: replaceJson rep cs
  | [] => []
/-- Line 141: `output_file.replace('.json', '_offensive.json')`. -/
def renameOffensive (s : String) : String :=
  (replaceJson offRep s.toList).asString
/-! ## Comment store loader (`load_comments`, lines 17-21) -/
/-- Outcome of `open(file_path)` followed by `json.load(f)`:
`readError` models any raised exception (missing file, unreadable file,
content that is not valid JSON); `parsed v` a successful parse. -/
inductive FileRead where
  | readError
  | parsed (v : PyVal)
/-- `load_comments` (lines 17-21): parse the file and return
`data['comments']`.  `.error ()` models a propagated exception (the
read/parse failure, the `TypeError` of subscripting a non-dict value,
or the `KeyError` of a missing `'comments'` key); all of them abort the
run.  Whatever value sits under `'comments'` is returned unexamined. -/
def load_comments : FileRead → Except Unit PyVal
  | .readError => .error ()
  | .parsed v =>
      match v with
      | .pdict d =>
          match dget d "comments" with
          | some x => .ok x
          | none => .error ()
      | _ => .error ()
/-! ## Concrete fixtures and claim-specific definitions -/
/-- A base input record with only the loader-provided fields. -/
def c3Input : Dict := [("username", .pstr "a"), ("comment_text", .pstr "hello")]
/-- The record after annotation when the classification service
responds with the valid-JSON content string consisting of an empty
object, which `json.loads` parses successfully to an empty dict. -/
def c3Out : Dict :=
  [("username", .pstr "a"), ("comment_text", .pstr "hello"),
   ("contains_profanity", .pbool false)]
/-- Is a value a Python list? -/
def PyVal.isList : PyVal → Bool
  | .plist _ => true
  | _ => false
/-- The annotated record of `c3Input` when every classification call
raises. -/
def c6Out : Dict :=
  dupdate (dset c3Input "contains_profanity" (.pbool false)) errorDefault
/-- The documented contract of the classification service (spec section
6): every response content that parses successfully is a JSON object
carrying a boolean `is_offensive` field (its last binding, since later
duplicate JSON keys win). -/
def respWF (parse : String → Option PyVal) (call : PyVal → ApiCall) : Prop :=
  ∀ t s v, call t = .responded s → parse s = some v →
    ∃ e, v = .pdict e ∧ ∃ b, dgetLast e "is_offensive" = some (.pbool b)

/-- A classification response object whose `is_offensive` value is the
truthy non-boolean string `"yes"` — outside the documented contract but
accepted verbatim by `analyze_comment`. -/
def c7Resp : List (String × PyVal) :=
  [("is_offensive", .pstr "yes"), ("offense_type", .pstr "toxicity")]

/-- The annotated record of `c3Input` when the service responds with
`c7Resp`. -/
def c7Out : Dict :=
  dupdate (dset c3Input "contains_profanity" (.pbool false)) c7Resp
/-- An offensive record that carries no `severity` field. -/
def c10In : Dict :=
  [("is_offensive", .pbool true), ("offense_type", .pstr "toxicity")]
/-- Does the record's sort key carry an integer severity? -/
def sevIsInt (c : Dict) : Bool :=
  match sevKey c with
  | .pint _ => true
  | _ => false
/-- The integer severity carried by the sort key (0 outside the
integer region, which the theorems exclude). -/
def sevInt (c : Dict) : Int :=
  match sevKey c with
  | .pint n => n
  | _ => 0
def cA : Dict :=
  [("username", .pstr "u1"), ("comment_text", .pstr "x"),
   ("contains_profanity", .pbool false), ("is_offensive", .pbool true),
   ("offense_type", .pstr "toxicity"), ("severity", .pint 1),
   ("explanation", .pstr "e1")]
def cB : Dict :=
  [("username", .pstr "u2"), ("comment_text", .pstr "y"),
   ("contains_profanity", .pbool false), ("is_offensive", .pbool true),
   ("offense_type", .pstr "harassment"), ("severity", .pint 5),
   ("explanation", .pstr "e2")]
/-- The report `generate_report` computes for `[cA, cB]`. -/
def mostOffensiveWitnessReport : Report :=
  { total_comments := 2, offensive_comments := 2,
    offense_types := [(.pstr "toxicity", 1), (.pstr "harassment", 1)],
    most_offensive := [cB, cA], all_offensive := [cA, cB] }
/-! ## Dictionary lemmas -/
theorem dget_dset (d : Dict) (k : String) (v : PyVal) (k' : String) :
    dget (dset d k v) k' = if k' = k then some v else dget d k' := by
  induction d with
  | nil => simp [dset, dget]
  | cons kv d ih =>
      obtain ⟨k₀, v₀⟩ := kv
      by_cases h : k = k₀
      · subst h
        simp only [dset, if_pos rfl, dget]
        by_cases h' : k' = k <;> simp [h']
      · simp only [dset, if_neg h, dget, ih]
        by_cases h' : k' = k₀
        · subst h'
          have : ¬ k' = k := fun hc => h hc.symm
          simp [this]
        · simp [h']
theorem dget_dupdate (d : Dict) (e : List (String × PyVal)) (k : String) :
    dget (dupdate d e) k =
      match dgetLast e k with
      | some v => some v
      | none => dget d k := by
  induction e generalizing d with
  | nil => simp [dupdate, dgetLast, List.foldl]
  | cons kv e ih =>
      obtain ⟨k₁, v₁⟩ := kv
      have hstep : dupdate d ((k₁, v₁) :: e) = dupdate (dset d k₁ v₁) e := rfl
      rw [hstep, ih]
      simp only [dgetLast]
      cases dgetLast e k with
      | some v => rfl
      | none =>
          simp only [dget_dset]
          by_cases h : k = k₁ <;> simp [h]
theorem dget_dupdate_isSome (d : Dict) (e : List (String × PyVal)) (k : String)
    (h : (dget d k).isSome = true) : (dget (dupdate d e) k).isSome = true := by
  rw [dget_dupdate]
  cases dgetLast e k with
  | some v => simp
  | none => simpa using h
/-! ## Lemmas about the fallible loop combinators -/
theorem mapOpt_forall₂ (f : α → Option β) (l : List α) (out : List β)
    (h : mapOpt f l = some out) : List.Forall₂ (fun x y => f x = some y) l out := by
  induction l generalizing out with
  | nil =>
      simp only [mapOpt] at h
      cases h
      exact List.Forall₂.nil
  | cons x xs ih =>
      simp only [mapOpt] at h
      cases hf : f x with
      | none => rw [hf] at h; exact absurd h (by simp)
      | some y =>
          rw [hf] at h
          cases hm : mapOpt f xs with
          | none => rw [hm] at h; exact absurd h (by simp)
          | some ys =>
              rw [hm] at h
              cases h
              exact List.Forall₂.cons hf (ih ys hm)
theorem mapOpt_length (f : α → Option β) (l : List α) (out : List β)
    (h : mapOpt f l = some out) : out.length = l.length :=
  (List.Forall₂.length_eq (mapOpt_forall₂ f l out h)).symm
theorem forall₂_mem_right {R : α → β → Prop} {l1 : List α} {l2 : List β}
    (h : List.Forall₂ R l1 l2) (y : β) (hy : y ∈ l2) : ∃ x ∈ l1, R x y := by
  induction h with
  | nil => cases hy
  | cons hf _ ih =>
      rcases List.mem_cons.mp hy with h' | h'
      · exact ⟨_, List.mem_cons_self _ _, h' ▸ hf⟩
      · rcases ih h' with ⟨x, hx, hfx⟩
        exact ⟨x, List.mem_cons_of_mem _ hx, hfx⟩
theorem mapOpt_mem (f : α → Option β) (l : List α) (out : List β)
    (h : mapOpt f l = some out) (y : β) (hy : y ∈ out) :
    ∃ x ∈ l, f x = some y :=
  forall₂_mem_right (mapOpt_forall₂ f l out h) y hy
theorem filterOpt_spec (p : α → Option Bool) (l ys : List α)
    (h : filterOpt p l = some ys) :
    ys.length ≤ l.length ∧ ∀ y ∈ ys, y ∈ l ∧ p y = some true := by
  induction l generalizing ys with
  | nil =>
      simp only [filterOpt] at h
      cases h
      exact ⟨Nat.le_refl _, by intro y hy; cases hy⟩
  | cons x xs ih =>
      simp only [filterOpt] at h
      cases hp : p x with
      | none => rw [hp] at h; exact absurd h (by simp)
      | some b =>
          rw [hp] at h
          cases hm : filterOpt p xs with
          | none => rw [hm] at h; cases b <;> simp_all
          | some zs =>
              rw [hm] at h
              rcases ih zs hm with ⟨hlen, hmem⟩
              cases b with
              | false =>
                  simp only at h
                  cases h
                  refine ⟨Nat.le_succ_of_le hlen, fun y hy => ?_⟩
                  rcases hmem y hy with ⟨h1, h2⟩
                  exact ⟨List.mem_cons_of_mem _ h1, h2⟩
              | true =>
                  simp only at h
                  cases h
                  refine ⟨by simpa using hlen, fun y hy => ?_⟩
                  rcases List.mem_cons.mp hy with h' | h'
                  · exact ⟨List.mem_cons.mpr (Or.inl h'), h' ▸ hp⟩
                  · rcases hmem y h' with ⟨h1, h2⟩
                    exact ⟨List.mem_cons_of_mem _ h1, h2⟩
/-! ## Claim C1 -/
/-- C1: for every comment text, if the classification call fails in any
way — the API call raises, or its content string is not parseable JSON
(`parse` returns `none`) — then `analyze_comment` returns exactly the
degraded default record `is_offensive=false, offense_type="error",
severity=1, explanation="Error in analysis"`.  No exception escapes:
the embedding of `analyze_comment` is a total function. -/
theorem analyzeComment_failure_default (parse : String → Option PyVal)
    (call : ApiCall)
    (h : call = .raised ∨ ∃ s, call = .responded s ∧ parse s = none) :
    analyze_comment parse call = .pdict errorDefault := by
  rcases h with h | ⟨s, hc, hp⟩
  · rw [h]; rfl
  · rw [hc]
    simp only [analyze_comment, hp]
theorem analyzeComment_failure_default_witness :
    (ApiCall.raised = ApiCall.raised ∨
      ∃ s, ApiCall.raised = ApiCall.responded s ∧
        (fun _ : String => (none : Option PyVal)) s = none) ∧
    analyze_comment (fun _ => none) ApiCall.raised = .pdict errorDefault :=
  ⟨Or.inl rfl, analyzeComment_failure_default (fun _ => none) ApiCall.raised (Or.inl rfl)⟩
/-! ## Claim C3 -/
/-- C3 fails on the code: when the classification response content is
the parseable-JSON empty object (modelled by `parse` returning the
empty dict), `comment.update({})` adds nothing, the annotated record
reaches aggregation without `is_offensive`, and `generate_report`
raises a `KeyError` (modelled by `none`).  The claimed invariant —
aggregation never sees a record missing `is_offensive`, for every
possible service response — is therefore violated. -/
theorem aggregation_sees_missing_is_offensive :
    processComment (fun _ => some (.pdict [])) (fun _ => false)
        (fun _ => .responded "\x7b\x7d") c3Input = some c3Out ∧
    dget c3Out "is_offensive" = none ∧
    generate_report [c3Out] = none :=
  ⟨rfl, rfl, rfl⟩
/-! ## Claim C5 -/
theorem replaceJson_nil (rep : List Char) : replaceJson rep [] = [] := rfl
theorem replaceJson_pat (rep rest : List Char) :
    replaceJson rep (jsonPat ++ rest) = rep ++ replaceJson rep rest := rfl
theorem replaceJson_cons_nostart (rep : List Char) (c : Char) (cs : List Char)
    (h : listStarts jsonPat (c :: cs) = false) :
    replaceJson rep (c :: cs) = c :: replaceJson rep cs := by
  rw [replaceJson.eq_def]
  split
  · rename_i rest heq
    rw [heq] at h
    simp [jsonPat, listStarts] at h
  · rename_i c' cs' heq
    cases heq
    rfl
  · rename_i heq
    cases heq
/-- C5 fails as stated: line 141 is a global substring replacement of
`'.json'`, not an insertion before the path's extension.  With the
extension `.txt` the path is left unchanged, and a second occurrence of
`.json` earlier in the path is rewritten as well. -/
theorem renameOffensive_counterexample :
    (renameOffensive "a.txt" = "a.txt" ∧
     renameOffensive "a.txt" ≠ "a_offensive.txt") ∧
    (renameOffensive "a.json.json" = "a_offensive.json_offensive.json" ∧
     renameOffensive "a.json.json" ≠ "a.json_offensive.json") :=
  ⟨⟨rfl, by decide⟩, ⟨rfl, by decide⟩⟩
/-- C5 amended: the rename replaces every occurrence of the literal
substring `.json` with `_offensive.json` (and so leaves any other
extension unchanged); for a path `base ++ ".json"` whose prefix `base`
starts no occurrence of `.json`, this is exactly the insertion of
`_offensive` before the `.json` extension. -/
theorem renameOffensive_inserts_marker (base : List Char)
    (h : (base.tails.all fun t =>
            t.isEmpty || !(listStarts jsonPat (t ++ jsonPat))) = true) :
    replaceJson offRep (base ++ jsonPat) = base ++ offRep ∧
    renameOffensive (base.asString ++ ".json") = (base ++ offRep).asString := by
  have key : replaceJson offRep (base ++ jsonPat) = base ++ offRep := by
    induction base with
    | nil => simpa using replaceJson_pat offRep []
    | cons c bs ih =>
        rw [List.tails_cons, List.all_cons, Bool.and_eq_true] at h
        obtain ⟨h1, h2⟩ := h
        have hns : listStarts jsonPat (c :: (bs ++ jsonPat)) = false := by
          simpa using h1
        rw [List.cons_append, replaceJson_cons_nostart _ _ _ hns, ih h2,
          List.cons_append]
  refine ⟨key, ?_⟩
  show (replaceJson offRep (base.asString ++ ".json").toList).asString = _
  have : (base.asString ++ ".json").toList = base ++ jsonPat := rfl
  rw [this, key]
theorem renameOffensive_inserts_marker_witness :
    (("output/analyzed_comments".toList.tails.all fun t =>
        t.isEmpty || !(listStarts jsonPat (t ++ jsonPat))) = true) ∧
    (replaceJson offRep ("output/analyzed_comments".toList ++ jsonPat) =
        "output/analyzed_comments".toList ++ offRep ∧
     renameOffensive ("output/analyzed_comments".toList.asString ++ ".json") =
        ("output/analyzed_comments".toList ++ offRep).asString) :=
  ⟨by decide, renameOffensive_inserts_marker "output/analyzed_comments".toList (by decide)⟩
/-! ## Claim C4 -/
/-- C4 fails on the code: both renderers call `fig.write_html`
unconditionally, so with `--plot-format png` the two chart files are
created at the `*_offense_distribution.png` and
`*_severity_distribution.png` paths but contain interactive HTML, not
static images. -/
theorem charts_always_html (offense_types : List (PyVal × Nat))
    (comments : List Dict) (output_file : String) :
    ((renderCharts offense_types comments output_file .png).1.format = .html ∧
     (renderCharts offense_types comments output_file .png).1.path =
        (pySplitext output_file.toList).1.asString ++ "_offense_distribution.png") ∧
    (∀ cf, (renderCharts offense_types comments output_file .png).2 = some cf →
        cf.format = .html) ∧
    ChartFormat.html ≠ ChartFormat.png := by
  refine ⟨⟨rfl, ?_⟩, ?_, by decide⟩
  · show offenseChartPath output_file .png = _
    simp [offenseChartPath, fmtStr, String.append_assoc]
  intro cf h
  simp only [renderCharts, plot_severity_distribution] at h
  cases hf : filterOpt offensiveFlag comments with
  | none => rw [hf] at h; cases h
  | some offensive =>
      rw [hf] at h
      cases h
      rfl
theorem charts_always_html_witness :
    (renderCharts [] [] "output/analyzed_comments.json" ChartFormat.png).1.format
        = ChartFormat.html ∧
    ({ path := severityChartPath "output/analyzed_comments.json" ChartFormat.png,
       format := ChartFormat.html, data := [] } : ChartFile).format = ChartFormat.html :=
  ⟨(charts_always_html [] [] "output/analyzed_comments.json").1.1,
   (charts_always_html [] [] "output/analyzed_comments.json").2.1 _ rfl⟩
/-! ## Claim C8 -/
/-- C8 fails as stated: when the file parses to an object whose
`comments` key holds a non-sequence value, `load_comments` neither
returns a sequence of comment records nor fails — it returns the stored
value unexamined. -/
theorem load_comments_counterexample :
    load_comments (.parsed (.pdict [("comments", .pint 5)])) = .ok (.pint 5) ∧
    (PyVal.pint 5).isList = false :=
  ⟨rfl, rfl⟩
/-- C8 amended: `load_comments` fails (with a propagated, fatal
exception) exactly when the read or JSON parse fails, the parsed value
is not an object, or the object lacks the `comments` key; when the key
is present, whatever value it stores is returned as-is, without
validating that it is a sequence of records.  The embedding is a pure
function of the file content, so the read is its only effect. -/
theorem load_comments_spec :
    (load_comments .readError = .error ()) ∧
    (∀ d x, dget d "comments" = some x →
        load_comments (.parsed (.pdict d)) = .ok x) ∧
    (∀ d, dget d "comments" = none →
        load_comments (.parsed (.pdict d)) = .error ()) ∧
    (load_comments (.parsed .pnone) = .error ()) ∧
    (∀ b, load_comments (.parsed (.pbool b)) = .error ()) ∧
    (∀ n, load_comments (.parsed (.pint n)) = .error ()) ∧
    (∀ s, load_comments (.parsed (.pstr s)) = .error ()) ∧
    (∀ xs, load_comments (.parsed (.plist xs)) = .error ()) := by
  refine ⟨rfl, ?_, ?_, rfl, fun b => rfl, fun n => rfl, fun s => rfl, fun xs => rfl⟩
  · intro d x h
    simp only [load_comments, h]
  · intro d h
    simp only [load_comments, h]
theorem load_comments_spec_witness :
    (dget [("comments", PyVal.plist [])] "comments" = some (.plist [])) ∧
    load_comments (.parsed (.pdict [("comments", .plist [])])) = .ok (.plist []) :=
  ⟨rfl, load_comments_spec.2.1 _ _ rfl⟩
/-! ## Claim C9 -/
theorem processComment_none (parse : String → Option PyVal) (pf : PyVal → Bool)
    (call : PyVal → ApiCall) (c : Dict) (h : dget c "comment_text" = none) :
    processComment parse pf call c = none := by
  simp only [processComment, h]
theorem processComment_some (parse : String → Option PyVal) (pf : PyVal → Bool)
    (call : PyVal → ApiCall) (c : Dict) (t : PyVal)
    (h : dget c "comment_text" = some t) :
    processComment parse pf call c =
      match analyze_comment parse (call t) with
      | .pdict e => some (dupdate (dset c "contains_profanity" (.pbool (pf t))) e)
      | _ => none := by
  have h2 : dget (dset c "contains_profanity" (.pbool (pf t))) "comment_text" = some t := by
    rw [dget_dset]
    simpa using h
  simp only [processComment, h, h2]
/-- C9: the profanity pre-filter verdict neither gates nor alters the
classification step.  Two annotation runs that differ only in the
pre-filter function reach the classifier with the same input text,
succeed or raise identically, and produce records that agree on every
field other than `contains_profanity` itself — in particular on all
four derived classification fields. -/
theorem prefilter_independent (parse : String → Option PyVal)
    (pf1 pf2 : PyVal → Bool) (call : PyVal → ApiCall) (c : Dict) :
    (processComment parse pf1 call c).isSome
        = (processComment parse pf2 call c).isSome ∧
    (∀ out1 out2, processComment parse pf1 call c = some out1 →
      processComment parse pf2 call c = some out2 →
      ∀ k, k ≠ "contains_profanity" → dget out1 k = dget out2 k) := by
  cases h0 : dget c "comment_text" with
  | none =>
      rw [processComment_none parse pf1 call c h0,
        processComment_none parse pf2 call c h0]
      exact ⟨rfl, fun o1 o2 h1 => nomatch h1⟩
  | some t =>
      rw [processComment_some parse pf1 call c t h0,
        processComment_some parse pf2 call c t h0]
      cases ha : analyze_comment parse (call t) with
      | pnone => exact ⟨rfl, fun o1 o2 h1 => nomatch h1⟩
      | pbool b => exact ⟨rfl, fun o1 o2 h1 => nomatch h1⟩
      | pint n => exact ⟨rfl, fun o1 o2 h1 => nomatch h1⟩
      | pstr s => exact ⟨rfl, fun o1 o2 h1 => nomatch h1⟩
      | plist xs => exact ⟨rfl, fun o1 o2 h1 => nomatch h1⟩
      | pdict e =>
          refine ⟨rfl, ?_⟩
          intro out1 out2 h1 h2 k hk
          cases h1
          cases h2
          rw [dget_dupdate, dget_dupdate]
          cases dgetLast e k with
          | some v => rfl
          | none => rw [dget_dset, dget_dset, if_neg hk, if_neg hk]
theorem prefilter_independent_witness :
    dget (dupdate (dset c3Input "contains_profanity" (.pbool true)) errorDefault)
        "is_offensive" =
      dget (dupdate (dset c3Input "contains_profanity" (.pbool false)) errorDefault)
        "is_offensive" :=
  (prefilter_independent (fun _ => none) (fun _ => true) (fun _ => false)
      (fun _ => .raised) c3Input).2 _ _ rfl rfl "is_offensive" (by decide)

/-! ## Claim C6 -/
theorem processComment_inv (parse : String → Option PyVal) (pf : PyVal → Bool)
    (call : PyVal → ApiCall) (c out : Dict)
    (h : processComment parse pf call c = some out) :
    ∃ t e, dget c "comment_text" = some t ∧
      analyze_comment parse (call t) = .pdict e ∧
      out = dupdate (dset c "contains_profanity" (.pbool (pf t))) e := by
  cases h0 : dget c "comment_text" with
  | none => rw [processComment_none parse pf call c h0] at h; cases h
  | some t =>
      rw [processComment_some parse pf call c t h0] at h
      cases ha : analyze_comment parse (call t) with
      | pnone => rw [ha] at h; exact Option.noConfusion h
      | pbool b => rw [ha] at h; exact Option.noConfusion h
      | pint n => rw [ha] at h; exact Option.noConfusion h
      | pstr s => rw [ha] at h; exact Option.noConfusion h
      | plist xs => rw [ha] at h; exact Option.noConfusion h
      | pdict e =>
          rw [ha] at h
          have h' : some (dupdate (dset c "contains_profanity" (.pbool (pf t))) e)
              = some out := h
          exact ⟨t, e, rfl, ha, (Option.some.inj h').symm⟩
theorem processComment_keys_mono (parse : String → Option PyVal)
    (pf : PyVal → Bool) (call : PyVal → ApiCall) (c out : Dict)
    (h : processComment parse pf call c = some out) (k : String)
    (hk : (dget c k).isSome = true) : (dget out k).isSome = true := by
  obtain ⟨t, e, _, _, hout⟩ := processComment_inv parse pf call c out h
  subst hout
  apply dget_dupdate_isSome
  rw [dget_dset]
  by_cases hkk : k = "contains_profanity" <;> simp [hkk, hk]
/-- C6: with `--filter-offensive` off, a completed run exports a
sequence of the same length as the input, and position by position the
exported record's key set contains the input record's key set (the loop
only adds `contains_profanity` and the keys of the parsed analysis). -/
theorem unfiltered_export_superset (parse : String → Option PyVal)
    (pf : PyVal → Bool) (call : PyVal → ApiCall) (l out : List Dict)
    (h : runPipeline parse pf call false l = some out) :
    out.length = l.length ∧
    List.Forall₂ (fun cin cout => ∀ k,
      (dget cin k).isSome = true → (dget cout k).isSome = true) l out := by
  cases hm : mapOpt (processComment parse pf call) l with
  | none => simp [runPipeline, hm] at h
  | some annotated =>
      cases hr : generate_report annotated with
      | none => simp [runPipeline, hm, hr] at h
      | some r =>
          simp only [runPipeline, hm, hr, Bool.false_eq_true, if_false,
            Option.some.injEq] at h
          subst h
          refine ⟨mapOpt_length _ _ _ hm, ?_⟩
          exact (mapOpt_forall₂ _ _ _ hm).imp
            (fun x y hpc k hk => processComment_keys_mono _ _ _ x y hpc k hk)
theorem unfiltered_export_superset_witness :
    runPipeline (fun _ => none) (fun _ => false) (fun _ => .raised) false [c3Input]
        = some [c6Out] ∧
    [c6Out].length = [c3Input].length :=
  ⟨rfl, (unfiltered_export_superset (fun _ => none) (fun _ => false)
      (fun _ => .raised) [c3Input] [c6Out] rfl).1⟩
/-! ## Claim C7 -/
theorem processComment_bool_offensive (parse : String → Option PyVal)
    (pf : PyVal → Bool) (call : PyVal → ApiCall) (c out : Dict)
    (hw : respWF parse call) (h : processComment parse pf call c = some out) :
    ∃ b, dget out "is_offensive" = some (.pbool b) := by
  obtain ⟨t, e, _, ha, hout⟩ := processComment_inv parse pf call c out h
  subst hout
  have he : ∃ b, dgetLast e "is_offensive" = some (.pbool b) := by
    cases hc : call t with
    | raised =>
        rw [hc] at ha
        have h' : PyVal.pdict errorDefault = PyVal.pdict e := ha
        cases h'
        exact ⟨false, rfl⟩
    | responded s =>
        rw [hc] at ha
        simp only [analyze_comment] at ha
        cases hp : parse s with
        | none =>
            rw [hp] at ha
            have h' : PyVal.pdict errorDefault = PyVal.pdict e := ha
            cases h'
            exact ⟨false, rfl⟩
        | some v =>
            rw [hp] at ha
            obtain ⟨e', hv, b, hb⟩ := hw t s v hc hp
            rw [hv] at ha
            cases ha
            exact ⟨b, hb⟩
  obtain ⟨b, hb⟩ := he
  refine ⟨b, ?_⟩
  rw [dget_dupdate, hb]
/-- C7 fails as stated: the line-140 filter `if c['is_offensive']` is
a truthiness test, not a comparison with `True`.  A service response
whose `is_offensive` is the truthy non-boolean string `"yes"` is parsed
successfully, stored verbatim, kept by the filter, and exported — and
`"yes" == True` is false in Python. -/
theorem filtered_export_not_bool_true :
    runPipeline (fun _ => some (.pdict c7Resp)) (fun _ => false)
        (fun _ => .responded "resp") true [c3Input] = some [c7Out] ∧
    dget c7Out "is_offensive" = some (.pstr "yes") ∧
    PyVal.pstr "yes" ≠ PyVal.pbool true :=
  ⟨rfl, rfl, fun h => nomatch h⟩

/-- C7 amended: with `--filter-offensive` set, every record of a
completed run's exported sequence has a truthy `is_offensive` and the
export is no longer than the input; whenever the service additionally
meets its documented contract (spec section 6: a boolean
`is_offensive` in every parsed response), truthy is exactly
`is_offensive == true`. -/
theorem filtered_export_offensive (parse : String → Option PyVal)
    (pf : PyVal → Bool) (call : PyVal → ApiCall) (l out : List Dict)
    (h : runPipeline parse pf call true l = some out) :
    ((∀ c ∈ out, offensiveFlag c = some true) ∧ out.length ≤ l.length) ∧
    (respWF parse call →
      ∀ c ∈ out, dget c "is_offensive" = some (.pbool true)) := by
  cases hm : mapOpt (processComment parse pf call) l with
  | none => simp [runPipeline, hm] at h
  | some annotated =>
      cases hr : generate_report annotated with
      | none => simp [runPipeline, hm, hr] at h
      | some r =>
          simp only [runPipeline, hm, hr, if_true] at h
          obtain ⟨hlen, hmem⟩ := filterOpt_spec _ _ _ h
          refine ⟨⟨fun c hc => (hmem c hc).2,
            hlen.trans (Nat.le_of_eq (mapOpt_length _ _ _ hm))⟩, ?_⟩
          intro hw c hc
          obtain ⟨hcann, hflag⟩ := hmem c hc
          obtain ⟨x, _, hpx⟩ := mapOpt_mem _ _ _ hm c hcann
          obtain ⟨b, hb⟩ := processComment_bool_offensive _ _ _ _ _ hw hpx
          rw [offensiveFlag, hb] at hflag
          simp [PyVal.truthy] at hflag
          rw [hb, hflag]
theorem filtered_export_offensive_witness :
    ((∀ c ∈ ([c7Out] : List Dict), offensiveFlag c = some true) ∧
     ([c7Out] : List Dict).length ≤ [c3Input].length) ∧
    (∀ c ∈ ([] : List Dict), dget c "is_offensive" = some (.pbool true)) :=
  ⟨(filtered_export_offensive (fun _ => some (.pdict c7Resp)) (fun _ => false)
      (fun _ => .responded "resp") [c3Input] [c7Out] rfl).1,
   (filtered_export_offensive (fun _ => none) (fun _ => false) (fun _ => .raised)
      [c3Input] [] rfl).2 (fun _ _ _ hc _ => nomatch hc)⟩
/-! ## Claim C10 -/
/-- C10: an offensive record with no `severity` field breaks nothing:
every access to severity is the defaulting lookup `.get('severity', 1)`
(lines 63, 86, 172, 181), so the report's sort key, the printed
severity, and the severity-chart bucket for such a record are all the
integer 1, and both `generate_report` and `plot_severity_distribution`
succeed on it. -/
theorem missing_severity_defaults (c : Dict)
    (hs : dget c "severity" = none)
    (ho : offensiveFlag c = some true)
    (ht : (dget c "offense_type").isSome = true) :
    sevKey c = .pint 1 ∧
    (∃ r, generate_report [c] = some r ∧ r.most_offensive = [c]) ∧
    (∀ p : String, ∃ cf, plot_severity_distribution [c] p = some cf ∧
        cf.data = [(.pint 1, 1)]) := by
  have hkey : sevKey c = .pint 1 := by rw [sevKey, hs]; rfl
  have hf : filterOpt offensiveFlag [c] = some [c] := by
    simp only [filterOpt, ho]
  refine ⟨hkey, ?_, ?_⟩
  · obtain ⟨v, hv⟩ := Option.isSome_iff_exists.mp ht
    have hm : mapOpt (fun c => dget c "offense_type") [c] = some [v] := by
      simp only [mapOpt, hv]
    refine ⟨{ total_comments := 1, offensive_comments := 1,
              offense_types := counter [v], most_offensive := [c],
              all_offensive := [c] }, ?_, rfl⟩
    simp only [generate_report, hf, hm]
    rfl
  · intro p
    refine ⟨{ path := p, format := .html, data := counter ([c].map sevKey) },
      ?_, ?_⟩
    · simp only [plot_severity_distribution, hf]
    · show counter ([c].map sevKey) = [(.pint 1, 1)]
      simp [counter, bump, hkey]
theorem missing_severity_defaults_witness :
    (dget c10In "severity" = none) ∧
    sevKey c10In = .pint 1 ∧
    (∃ cf, plot_severity_distribution [c10In] "chart.html" = some cf ∧
        cf.data = [(.pint 1, 1)]) :=
  ⟨rfl, (missing_severity_defaults c10In rfl rfl rfl).1,
   (missing_severity_defaults c10In rfl rfl rfl).2.2 "chart.html"⟩
/-! ## Claim C2 -/
theorem sevIsInt_exists (c : Dict) (h : sevIsInt c = true) :
    ∃ n, sevKey c = .pint n ∧ sevInt c = n := by
  unfold sevIsInt at h
  unfold sevInt
  cases hk : sevKey c <;> rw [hk] at h <;> simp_all
theorem pyLt_int (a b : Dict) (ha : sevIsInt a = true) (hb : sevIsInt b = true) :
    pyLt (sevKey a) (sevKey b) = decide (sevInt a < sevInt b) := by
  obtain innerA := sevIsInt_exists a ha
  obtain innerB := sevIsInt_exists b hb
  obtain ⟨n, hka, hna⟩ := innerA
  obtain ⟨m, hkb, hnb⟩ := innerB
  rw [hka, hkb, hna, hnb]
  simp [pyLt, PyVal.numView]
theorem mem_insertDesc (z x : Dict) (l : List Dict) :
    z ∈ insertDesc x l ↔ z = x ∨ z ∈ l := by
  induction l with
  | nil => simp [insertDesc]
  | cons y ys ih =>
      rw [insertDesc]
      by_cases hlt : pyLt (sevKey x) (sevKey y) = true
      · rw [if_pos hlt]
        simp only [List.mem_cons, ih]
        tauto
      · rw [if_neg hlt]
        simp only [List.mem_cons]
theorem mem_sortDesc (z : Dict) (l : List Dict) : z ∈ sortDesc l ↔ z ∈ l := by
  induction l with
  | nil => simp [sortDesc]
  | cons x xs ih =>
      rw [sortDesc, mem_insertDesc]
      simp [ih]
theorem insertDesc_sorted (x : Dict) (l : List Dict)
    (hx : sevIsInt x = true) (hl : ∀ c ∈ l, sevIsInt c = true)
    (hs : l.Pairwise (fun a b => sevInt b ≤ sevInt a)) :
    (insertDesc x l).Pairwise (fun a b => sevInt b ≤ sevInt a) := by
  induction l with
  | nil => simp [insertDesc]
  | cons y ys ih =>
      have hy : sevIsInt y = true := hl y (List.mem_cons_self y ys)
      rw [insertDesc]
      rcases List.pairwise_cons.mp hs with ⟨hy_ys, hs_ys⟩
      by_cases hlt : pyLt (sevKey x) (sevKey y) = true
      · rw [if_pos hlt]
        have hxy : sevInt x < sevInt y := by
          have h := pyLt_int x y hx hy
          rw [hlt] at h
          exact of_decide_eq_true h.symm
        refine List.pairwise_cons.mpr
          ⟨?_, ih (fun c hc => hl c (List.mem_cons_of_mem y hc)) hs_ys⟩
        intro z hz
        rcases (mem_insertDesc z x ys).mp hz with rfl | hzys
        · exact le_of_lt hxy
        · exact hy_ys z hzys
      · rw [if_neg hlt]
        have hxy : sevInt y ≤ sevInt x := by
          have h := pyLt_int x y hx hy
          rw [Bool.not_eq_true] at hlt
          rw [hlt] at h
          exact le_of_not_lt (of_decide_eq_false h.symm)
        refine List.pairwise_cons.mpr ⟨?_, hs⟩
        intro z hz
        rcases List.mem_cons.mp hz with rfl | hzys
        · exact hxy
        · exact le_trans (hy_ys z hzys) hxy
theorem sortDesc_sorted (l : List Dict) (hl : ∀ c ∈ l, sevIsInt c = true) :
    (sortDesc l).Pairwise (fun a b => sevInt b ≤ sevInt a) := by
  induction l with
  | nil => simp [sortDesc]
  | cons x xs ih =>
      rw [sortDesc]
      exact insertDesc_sorted x (sortDesc xs) (hl x (List.mem_cons_self x xs))
        (fun c hc => hl c (List.mem_cons_of_mem x ((mem_sortDesc c xs).mp hc)))
        (ih (fun c hc => hl c (List.mem_cons_of_mem x hc)))
theorem insertDesc_filter_eq (x : Dict) (l : List Dict) (s : Int)
    (hx : sevIsInt x = true) (hl : ∀ c ∈ l, sevIsInt c = true)
    (hxs : sevInt x = s) :
    (insertDesc x l).filter (fun c => decide (sevInt c = s)) =
      x :: l.filter (fun c => decide (sevInt c = s)) := by
  induction l with
  | nil => simp [insertDesc, List.filter, hxs]
  | cons y ys ih =>
      have hy : sevIsInt y = true := hl y (List.mem_cons_self y ys)
      rw [insertDesc]
      by_cases hlt : pyLt (sevKey x) (sevKey y) = true
      · rw [if_pos hlt]
        have hxy : sevInt x < sevInt y := by
          have h := pyLt_int x y hx hy
          rw [hlt] at h
          exact of_decide_eq_true h.symm
        have hys : ¬ (sevInt y = s) := by omega
        rw [List.filter_cons, List.filter_cons]
        simp only [hys, decide_False, Bool.false_eq_true, if_false]
        exact ih (fun c hc => hl c (List.mem_cons_of_mem y hc))
      · rw [if_neg hlt]
        rw [List.filter_cons]
        simp only [hxs, decide_True, if_true]
theorem insertDesc_filter_ne (x : Dict) (l : List Dict) (s : Int)
    (hxs : ¬ (sevInt x = s)) :
    (insertDesc x l).filter (fun c => decide (sevInt c = s)) =
      l.filter (fun c => decide (sevInt c = s)) := by
  induction l with
  | nil => simp [insertDesc, List.filter, hxs]
  | cons y ys ih =>
      rw [insertDesc]
      by_cases hlt : pyLt (sevKey x) (sevKey y) = true
      · rw [if_pos hlt]
        rw [List.filter_cons, List.filter_cons]
        rcases hpy : decide (sevInt y = s) with _ | _ <;> simp [hpy, ih]
      · rw [if_neg hlt]
        rw [List.filter_cons]
        simp only [hxs, decide_False, Bool.false_eq_true, if_false]
theorem sortDesc_filter (l : List Dict) (s : Int)
    (hl : ∀ c ∈ l, sevIsInt c = true) :
    (sortDesc l).filter (fun c => decide (sevInt c = s)) =
      l.filter (fun c => decide (sevInt c = s)) := by
  induction l with
  | nil => rfl
  | cons x xs ih =>
      rw [sortDesc]
      have hx := hl x (List.mem_cons_self x xs)
      have hxs' : ∀ c ∈ sortDesc xs, sevIsInt c = true :=
        fun c hc => hl c (List.mem_cons_of_mem x ((mem_sortDesc c xs).mp hc))
      have ihs := ih (fun c hc => hl c (List.mem_cons_of_mem x hc))
      by_cases hxs : sevInt x = s
      · rw [insertDesc_filter_eq x _ s hx hxs' hxs, ihs, List.filter_cons]
        simp only [hxs, decide_True, if_true]
      · rw [insertDesc_filter_ne x _ s hxs, ihs, List.filter_cons]
        simp only [hxs, decide_False, Bool.false_eq_true, if_false]
theorem filter_take_append_drop (l : List α) (n : Nat) (p : α → Bool) :
    (l.take n).filter p ++ (l.drop n).filter p = l.filter p := by
  rw [← List.filter_append, List.take_append_drop]
/-- C2 amended: `most_offensive` has length at most 5, is sorted by
severity (the defaulting sort key) descending, draws all its records
from `all_offensive`, and for each severity value its records of that
severity form a prefix of the equally-severe records of
`all_offensive` in input order — the stable-sort guarantee.  It is not
in general a subsequence of `all_offensive`, because records of higher
severity are moved ahead of earlier lower-severity ones. -/
theorem most_offensive_spec (l : List Dict) (r : Report)
    (hsev : ∀ c ∈ l, sevIsInt c = true)
    (hr : generate_report l = some r) :
    r.most_offensive.length ≤ 5 ∧
    r.most_offensive.Pairwise (fun a b => sevInt b ≤ sevInt a) ∧
    (∀ s : Int, ∃ tail,
        r.most_offensive.filter (fun c => decide (sevInt c = s)) ++ tail
          = r.all_offensive.filter (fun c => decide (sevInt c = s))) ∧
    (∀ c ∈ r.most_offensive, c ∈ r.all_offensive) := by
  cases hf : filterOpt offensiveFlag l with
  | none => simp [generate_report, hf] at hr
  | some offensive =>
      cases hm : mapOpt (fun c => dget c "offense_type") offensive with
      | none => simp [generate_report, hf, hm] at hr
      | some types =>
          simp only [generate_report, hf, hm, Option.some.injEq] at hr
          subst hr
          have hoff : ∀ c ∈ offensive, sevIsInt c = true := fun c hc =>
            hsev c ((filterOpt_spec _ _ _ hf).2 c hc).1
          refine ⟨?_, ?_, ?_, ?_⟩
          · exact List.length_take_le 5 (sortDesc offensive)
          · exact (sortDesc_sorted offensive hoff).sublist (List.take_sublist 5 _)
          · intro s
            refine ⟨((sortDesc offensive).drop 5).filter
              (fun c => decide (sevInt c = s)), ?_⟩
            show ((sortDesc offensive).take 5).filter _ ++ _ = _
            rw [filter_take_append_drop, sortDesc_filter offensive s hoff]
          · intro c hc
            exact (mem_sortDesc c offensive).mp (List.mem_of_mem_take hc)
/-- C2 fails as stated: with two offensive records of severities 1 and
5 (in that input order), `most_offensive` is `[cB, cA]` while
`all_offensive` is `[cA, cB]`, and the former is not a subsequence of
the latter — descending sorting reorders records of distinct
severities. -/
theorem most_offensive_not_sublist :
    (generate_report [cA, cB]).map Report.most_offensive = some [cB, cA] ∧
    (generate_report [cA, cB]).map Report.all_offensive = some [cA, cB] ∧
    ¬ List.Sublist [cB, cA] [cA, cB] := by
  refine ⟨rfl, rfl, ?_⟩
  intro h
  have heq : [cB, cA] = [cA, cB] := h.eq_of_length rfl
  have hba : cB = cA := (List.cons_eq_cons.mp heq).1
  rw [cA, cB] at hba
  injection hba with h1 h2
  injection h1 with h1a h1b
  injection h1b with h1c
  exact absurd h1c (by decide)
theorem most_offensive_spec_witness :
    (∀ c ∈ [cA, cB], sevIsInt c = true) ∧
    (mostOffensiveWitnessReport.most_offensive.length ≤ 5 ∧
     mostOffensiveWitnessReport.most_offensive.Pairwise
        (fun a b => sevInt b ≤ sevInt a) ∧
     (∀ s : Int, ∃ tail,
        mostOffensiveWitnessReport.most_offensive.filter
            (fun c => decide (sevInt c = s)) ++ tail
          = mostOffensiveWitnessReport.all_offensive.filter
              (fun c => decide (sevInt c = s))) ∧
     (∀ c ∈ mostOffensiveWitnessReport.most_offensive,
        c ∈ mostOffensiveWitnessReport.all_offensive)) :=
  ⟨by decide, most_offensive_spec [cA, cB] mostOffensiveWitnessReport (by decide) rfl⟩
